import Mathlib

/-!
# Verification of the raknet-rs connected-phase transport core

A shallow embedding of the parts of `raknet-rs` relevant to the frozen
claims: the `ResendMap` (src/resend_map.rs), the server `OfflineHandler`
(src/server/offline.rs) and the packet codec helpers (src/packet/mod.rs).

Time (`Instant`) is modelled as `Nat`; `Duration` addition is `Nat`
addition.  `u24` sequence numbers are modelled as `Nat` (the code converts
them to `u32` before any arithmetic, and every value produced stays below
2^24 so no wrap occurs inside the modelled functions).  Byte buffers are
`List Nat`.  `HashMap` is modelled as an association list scanned in list
order; the modelled operations never depend on hash order for the
properties proved here.  Frame payloads are an arbitrary type `α`.
-/

namespace RaknetRs

/-- Retransmission timeout from src/resend_map.rs: `RTO = 1s`, modelled in
milliseconds. -/
def RTO : Nat := 1000

/-- `Record` from packet/connected: a `Single` sequence number or an
inclusive `Range`. -/
inductive Record where
  | single (seqNum : Nat)
  | range (rstart rend : Nat)
  deriving Repr, DecidableEq

/-- `AckOrNack` from packet/connected: a list of records. -/
structure AckOrNack where
  records : List Record
  deriving Repr, DecidableEq

/-- The sequence numbers a record makes the code iterate over:
`Record::Range(start, end)` drives `for i in start.to_u32()..=end.to_u32()`
(empty when `end < start`), `Record::Single(s)` visits `s` alone. -/
def Record.seqs : Record → List Nat
  | .single s => [s]
  | .range a b => List.range' a (b + 1 - a)

/-- The coverage predicate as the specification words it: a `Single`
value, or any value of an inclusive `Range` from start to end. -/
def Record.covers : Record → Nat → Prop
  | .single n, s => s = n
  | .range a b, s => a ≤ s ∧ s ≤ b

/-- `ResendEntry` from src/resend_map.rs: frames held for retransmit plus
their deadline.  The `Option` around `frames` in the source only lets the
borrow checker move frames out during `retain`; every live entry holds
`Some frames`, so the model keeps the list directly. -/
structure ResendEntry (α : Type) where
  frames : List α
  expiredAt : Nat
  deriving Repr, DecidableEq

/-- `ResendMap` from src/resend_map.rs.  The hash map is an association
list; `lastRecordExpiredAt` is the short-circuit cache. -/
structure ResendMap (α : Type) where
  entries : List (Nat × ResendEntry α)
  lastRecordExpiredAt : Nat
  deriving Repr, DecidableEq

namespace ResendMap

/-- `ResendMap::new`, at creation instant `t0`. -/
def new (α : Type) (t0 : Nat) : ResendMap α :=
  { entries := [], lastRecordExpiredAt := t0 }

/-- Association-list lookup, the model of `HashMap::get`/presence. -/
def findEntry (m : ResendMap α) (s : Nat) : Option (ResendEntry α) :=
  (m.entries.find? (fun p => p.1 = s)).map (·.2)

/-- `HashMap::remove`: drop the binding for one key. -/
def removeKey (es : List (Nat × ResendEntry α)) (k : Nat) :
    List (Nat × ResendEntry α) :=
  es.filter (fun p => p.1 ≠ k)

/-- `ResendMap::record`: insert (replacing any old binding) with deadline
`now + RTO`. -/
def record (m : ResendMap α) (seqNum : Nat) (frames : List α) (now : Nat) :
    ResendMap α :=
  { m with entries := (seqNum, ⟨frames, now + RTO⟩) :: removeKey m.entries seqNum }

/-- `ResendMap::on_ack`: for every record, remove each visited sequence
number from the map.  No buffer is touched: the function takes none. -/
def on_ack (m : ResendMap α) (ack : AckOrNack) : ResendMap α :=
  { m with entries :=
      ack.records.foldl (fun es r => r.seqs.foldl removeKey es) m.entries }

/-- One step of `on_nack_into`: remove the entry for a sequence number,
appending its frames to the buffer when present. -/
def nackStep (st : List (Nat × ResendEntry α) × List α) (s : Nat) :
    List (Nat × ResendEntry α) × List α :=
  match st.1.find? (fun p => p.1 = s) with
  | some p => (removeKey st.1 s, st.2 ++ p.2.frames)
  | none => st

/-- `ResendMap::on_nack_into`: for every record, for each visited sequence
number, move a present entry's frames into the buffer and delete it. -/
def on_nack_into (m : ResendMap α) (nack : AckOrNack) (buffer : List α) :
    ResendMap α × List α :=
  let st := nack.records.foldl (fun st r => r.seqs.foldl nackStep st) (m.entries, buffer)
  ({ m with entries := st.1 }, st.2)

/-- `ResendMap::process_stales`: short-circuit when `now` is before the
cached deadline; otherwise move every entry with `expired_at ≤ now` into
the buffer (in scan order, as `retain` does), keep the rest, and cache the
minimum retained deadline (at most `now + RTO`). -/
def process_stales (m : ResendMap α) (now : Nat) (buffer : List α) :
    ResendMap α × List α :=
  if now < m.lastRecordExpiredAt then (m, buffer)
  else
    let stale := m.entries.filter (fun p => p.2.expiredAt ≤ now)
    let kept := m.entries.filter (fun p => ¬ p.2.expiredAt ≤ now)
    let minExpiredAt := kept.foldl (fun acc p => min acc p.2.expiredAt) (now + RTO)
    ({ entries := kept, lastRecordExpiredAt := minExpiredAt },
     buffer ++ (stale.map (·.2.frames)).flatten)

/-- `ResendMap::is_empty`. -/
def is_empty (m : ResendMap α) : Bool :=
  m.entries.isEmpty

end ResendMap

/-- Every sequence number visited by the records of an ack/nack, in the
order the source's nested loops visit them. -/
def AckOrNack.coveredSeqs (a : AckOrNack) : List Nat :=
  a.records.flatMap Record.seqs

theorem covers_iff_mem_seqs (r : Record) (s : Nat) :
    r.covers s ↔ s ∈ r.seqs := by
  cases r with
  | single n => simp [Record.covers, Record.seqs]
  | range a b =>
    simp only [Record.covers, Record.seqs, List.mem_range'_1]
    omega

namespace ResendMap

theorem find_removeKey (es : List (Nat × ResendEntry α)) (k s : Nat) :
    (removeKey es k).find? (fun p => p.1 = s) =
      if s = k then none else es.find? (fun p => p.1 = s) := by
  unfold removeKey
  rw [List.find?_filter]
  by_cases hsk : s = k
  · subst hsk
    rw [if_pos rfl, List.find?_eq_none]
    intro p _
    simp
  · rw [if_neg hsk]
    congr 1
    funext p
    by_cases hps : p.1 = s
    · simp [hps]
      exact hsk
    · simp [hps]

theorem find_foldl_removeKey (cs : List Nat) (es : List (Nat × ResendEntry α))
    (s : Nat) :
    (cs.foldl removeKey es).find? (fun p => p.1 = s) =
      if s ∈ cs then none else es.find? (fun p => p.1 = s) := by
  induction cs generalizing es with
  | nil => simp
  | cons c cs ih =>
    simp only [List.foldl_cons, ih, find_removeKey, List.mem_cons]
    by_cases hs : s ∈ cs
    · simp [hs]
    · by_cases hc : s = c <;> simp [hs, hc]

theorem on_ack_entries (m : ResendMap α) (ack : AckOrNack) :
    (on_ack m ack).entries = ack.records.foldl (fun es r => r.seqs.foldl removeKey es) m.entries :=
  rfl

theorem foldl_foldl_flatMap {β : Type} (f : β → Nat → β)
    (rs : List Record) (b : β) :
    rs.foldl (fun b r => r.seqs.foldl f b) b =
      (rs.flatMap Record.seqs).foldl f b := by
  induction rs generalizing b with
  | nil => simp
  | cons r rs ih => simp [List.flatMap_cons, List.foldl_append, ih]

theorem on_ack_find (m : ResendMap α) (ack : AckOrNack) (s : Nat) :
    (on_ack m ack).findEntry s =
      if s ∈ ack.coveredSeqs then none else m.findEntry s := by
  unfold findEntry AckOrNack.coveredSeqs
  rw [on_ack_entries, foldl_foldl_flatMap, find_foldl_removeKey]
  by_cases h : s ∈ ack.records.flatMap Record.seqs
  · rw [if_pos h, if_pos h]
    rfl
  · rw [if_neg h, if_neg h]

end ResendMap

/-- C1: for every `ResendMap` and every ack ingested by `on_ack`, every
sequence number covered by one of its records (a `Single` value, or any
value of an inclusive `Range` from start to end) is absent from the map
afterwards, and the binding of every non-covered sequence number is
unchanged (no other entries are removed; `on_ack` takes no buffer, so no
frames are reinjected anywhere). -/
theorem c1_on_ack_covered_absent {α : Type} (m : ResendMap α) (ack : AckOrNack) :
    (∀ r ∈ ack.records, ∀ s : Nat, r.covers s → (m.on_ack ack).findEntry s = none) ∧
    (∀ s : Nat, (∀ r ∈ ack.records, ¬ r.covers s) →
      (m.on_ack ack).findEntry s = m.findEntry s) := by
  constructor
  · intro r hr s hc
    rw [ResendMap.on_ack_find]
    have h : s ∈ ack.coveredSeqs := by
      simp only [AckOrNack.coveredSeqs, List.mem_flatMap]
      exact ⟨r, hr, (covers_iff_mem_seqs r s).mp hc⟩
    rw [if_pos h]
  · intro s hnc
    rw [ResendMap.on_ack_find]
    have h : s ∉ ack.coveredSeqs := by
      simp only [AckOrNack.coveredSeqs, List.mem_flatMap]
      rintro ⟨r, hr, hm⟩
      exact hnc r hr ((covers_iff_mem_seqs r s).mpr hm)
    rw [if_neg h]

/-- Witness for C1 at a concrete map and ack. -/
theorem c1_witness :
    ((ResendMap.record (ResendMap.new Nat 0) 3 [7] 0).on_ack
        ⟨[Record.range 2 4]⟩).findEntry 3 = none := by
  exact (c1_on_ack_covered_absent _ _).1 (Record.range 2 4) (by simp)
    3 (by constructor <;> decide)

namespace ResendMap

theorem nack_foldl (cs : List Nat) (es : List (Nat × ResendEntry α))
    (buf : List α) (h : cs.Nodup) :
    (cs.foldl nackStep (es, buf)).2 =
      buf ++ (cs.filterMap
        (fun s => (es.find? (fun p => p.1 = s)).map (·.2.frames))).flatten ∧
    ∀ s : Nat, (cs.foldl nackStep (es, buf)).1.find? (fun p => p.1 = s) =
      if s ∈ cs then none else es.find? (fun p => p.1 = s) := by
  induction cs generalizing es buf with
  | nil => simp
  | cons c cs ih =>
    rw [List.nodup_cons] at h
    obtain ⟨hc, hcs⟩ := h
    rw [List.foldl_cons]
    have hstep : nackStep (es, buf) c =
        match es.find? (fun p => p.1 = c) with
        | some p => (removeKey es c, buf ++ p.2.frames)
        | none => (es, buf) := rfl
    cases hfc : es.find? (fun p => p.1 = c) with
    | some p =>
      rw [hstep, hfc]
      obtain ⟨ih1, ih2⟩ := ih (removeKey es c) (buf ++ p.2.frames) hcs
      constructor
      · rw [ih1, List.filterMap_cons, hfc]
        have hcong : cs.filterMap
            (fun s => ((removeKey es c).find? (fun p => p.1 = s)).map (·.2.frames)) =
            cs.filterMap
            (fun s => (es.find? (fun p => p.1 = s)).map (·.2.frames)) := by
          apply List.filterMap_congr
          intro s hs
          rw [find_removeKey, if_neg]
          intro hsc
          exact hc (hsc ▸ hs)
        rw [hcong]
        simp only [Option.map_some', List.flatten_cons, List.append_assoc]
      · intro s
        rw [ih2 s, find_removeKey]
        by_cases hmem : s ∈ cs
        · simp [hmem]
        · by_cases hsc : s = c <;> simp [hmem, hsc]
    | none =>
      rw [hstep, hfc]
      obtain ⟨ih1, ih2⟩ := ih es buf hcs
      constructor
      · rw [ih1, List.filterMap_cons, hfc]
        simp only [Option.map_none']
      · intro s
        rw [ih2 s]
        by_cases hmem : s ∈ cs
        · simp [hmem]
        · by_cases hsc : s = c
          · subst hsc
            simp [hmem, hfc]
          · simp [hmem, hsc]

theorem on_nack_into_eq (m : ResendMap α) (nack : AckOrNack) (buf : List α) :
    m.on_nack_into nack buf =
      ({ m with entries := (nack.coveredSeqs.foldl nackStep (m.entries, buf)).1 },
       (nack.coveredSeqs.foldl nackStep (m.entries, buf)).2) := by
  unfold on_nack_into AckOrNack.coveredSeqs
  rw [foldl_foldl_flatMap]

end ResendMap

/-- C4: `on_nack_into` removes every covered sequence number that has an
entry and appends its frames to the buffer in their original order: the
frame list of each removed entry is appended whole, and the frame lists
appear in exactly the order in which the (sorted, non-overlapping, hence
duplicate-free) record list covers their sequence numbers.  Entries of
non-covered sequence numbers are untouched. -/
theorem c4_on_nack_into_order {α : Type} (m : ResendMap α) (nack : AckOrNack)
    (buf : List α) (h : nack.coveredSeqs.Nodup) :
    (m.on_nack_into nack buf).2 =
      buf ++ (nack.coveredSeqs.filterMap
        (fun s => (m.findEntry s).map (·.frames))).flatten ∧
    (∀ s ∈ nack.coveredSeqs, (m.on_nack_into nack buf).1.findEntry s = none) ∧
    (∀ s : Nat, s ∉ nack.coveredSeqs →
      (m.on_nack_into nack buf).1.findEntry s = m.findEntry s) := by
  obtain ⟨h1, h2⟩ := ResendMap.nack_foldl nack.coveredSeqs m.entries buf h
  rw [ResendMap.on_nack_into_eq]
  refine ⟨?_, ?_, ?_⟩
  · rw [h1]
    congr 1
    congr 1
    apply List.filterMap_congr
    intro s _
    rw [ResendMap.findEntry, Option.map_map]
    rfl
  · intro s hs
    rw [ResendMap.findEntry]
    simp only [h2 s, if_pos hs]
    rfl
  · intro s hs
    rw [ResendMap.findEntry, ResendMap.findEntry]
    simp only [h2 s, if_neg hs]

/-- Witness for C4: two recorded frame sets, nacked by one range, come
back in recording order with each set's internal order intact. -/
theorem c4_witness :
    ((⟨[(4, ⟨[10], 50⟩), (5, ⟨[20, 30], 60⟩)], 0⟩ :
        ResendMap Nat).on_nack_into ⟨[Record.range 4 5]⟩ []).2 = [10, 20, 30] := by
  have h := c4_on_nack_into_order
    (⟨[(4, ⟨[10], 50⟩), (5, ⟨[20, 30], 60⟩)], 0⟩ : ResendMap Nat)
    ⟨[Record.range 4 5]⟩ [] (by decide)
  rw [h.1]
  rfl

namespace ResendMap

theorem mem_removeKey {es : List (Nat × ResendEntry α)} {k : Nat}
    {p : Nat × ResendEntry α} (h : p ∈ removeKey es k) : p ∈ es :=
  (List.mem_filter.mp h).1

theorem mem_foldl_removeKey {cs : List Nat} {es : List (Nat × ResendEntry α)}
    {p : Nat × ResendEntry α} (h : p ∈ cs.foldl removeKey es) : p ∈ es := by
  induction cs generalizing es with
  | nil => exact h
  | cons c cs ih => exact mem_removeKey (ih h)

theorem mem_on_ack {m : ResendMap α} {a : AckOrNack} {p : Nat × ResendEntry α}
    (h : p ∈ (m.on_ack a).entries) : p ∈ m.entries := by
  rw [on_ack_entries, foldl_foldl_flatMap] at h
  exact mem_foldl_removeKey h

theorem mem_nackStep {st : List (Nat × ResendEntry α) × List α} {c : Nat}
    {p : Nat × ResendEntry α} (h : p ∈ (nackStep st c).1) : p ∈ st.1 := by
  unfold nackStep at h
  cases hfc : st.1.find? (fun q => q.1 = c) with
  | some q => rw [hfc] at h; exact mem_removeKey h
  | none => rw [hfc] at h; exact h

theorem mem_foldl_nackStep {cs : List Nat}
    {st : List (Nat × ResendEntry α) × List α} {p : Nat × ResendEntry α}
    (h : p ∈ (cs.foldl nackStep st).1) : p ∈ st.1 := by
  induction cs generalizing st with
  | nil => exact h
  | cons c cs ih => exact mem_nackStep (ih h)

theorem mem_on_nack_into {m : ResendMap α} {a : AckOrNack} {buf : List α}
    {p : Nat × ResendEntry α} (h : p ∈ (m.on_nack_into a buf).1.entries) :
    p ∈ m.entries := by
  rw [on_nack_into_eq] at h
  exact mem_foldl_nackStep h

theorem foldl_min_le_init (l : List (Nat × ResendEntry α)) (init : Nat) :
    l.foldl (fun acc p => min acc p.2.expiredAt) init ≤ init := by
  induction l generalizing init with
  | nil => exact Nat.le_refl _
  | cons q l ih =>
    exact Nat.le_trans (ih (min init q.2.expiredAt)) (Nat.min_le_left _ _)

theorem foldl_min_le_mem : ∀ (l : List (Nat × ResendEntry α)) (init : Nat)
    (p : Nat × ResendEntry α), p ∈ l →
    l.foldl (fun acc q => min acc q.2.expiredAt) init ≤ p.2.expiredAt := by
  intro l
  induction l with
  | nil =>
    intro init p hp
    cases hp
  | cons q l ih =>
    intro init p hp
    rcases List.mem_cons.mp hp with h | h
    · subst h
      exact Nat.le_trans (foldl_min_le_init l _) (Nat.min_le_right _ _)
    · exact ih _ p h

end ResendMap

/-- A `ResendMap` state reachable at instant `t` by any sequence of
`record`, `on_ack`, `on_nack_into` and `process_stales` calls made at
nondecreasing instants (the monotonic `Instant` clock). -/
inductive Reach (α : Type) : ResendMap α → Nat → Prop where
  | init (t0 : Nat) : Reach α (ResendMap.new α t0) t0
  | record {m : ResendMap α} {t : Nat} (t' seqNum : Nat) (frames : List α) :
      Reach α m t → t ≤ t' → Reach α (m.record seqNum frames t') t'
  | ack {m : ResendMap α} {t : Nat} (t' : Nat) (a : AckOrNack) :
      Reach α m t → t ≤ t' → Reach α (m.on_ack a) t'
  | nack {m : ResendMap α} {t : Nat} (t' : Nat) (a : AckOrNack) (buf : List α) :
      Reach α m t → t ≤ t' → Reach α (m.on_nack_into a buf).1 t'
  | stales {m : ResendMap α} {t : Nat} (t' : Nat) (buf : List α) :
      Reach α m t → t ≤ t' → Reach α (m.process_stales t' buf).1 t'

/-- The cache invariant making the `last_record_expired_at` short-circuit
sound: the cache never exceeds `t + RTO`, and no live entry's deadline is
below the cache. -/
def CacheInv (m : ResendMap α) (t : Nat) : Prop :=
  m.lastRecordExpiredAt ≤ t + RTO ∧
  ∀ p ∈ m.entries, m.lastRecordExpiredAt ≤ p.2.expiredAt

theorem reach_cacheInv {α : Type} {m : ResendMap α} {t : Nat}
    (h : Reach α m t) : CacheInv m t := by
  induction h with
  | init t0 =>
    exact ⟨Nat.le_add_right _ _, by intro p hp; cases hp⟩
  | record t' seqNum frames _ hle ih =>
    refine ⟨Nat.le_trans ih.1 (by omega), ?_⟩
    intro p hp
    rcases List.mem_cons.mp hp with h | h
    · subst h
      change _ ≤ t' + RTO
      exact Nat.le_trans ih.1 (by omega)
    · exact ih.2 p (ResendMap.mem_removeKey h)
  | ack t' a _ hle ih =>
    exact ⟨Nat.le_trans ih.1 (by omega),
      fun p hp => ih.2 p (ResendMap.mem_on_ack hp)⟩
  | nack t' a buf _ hle ih =>
    exact ⟨Nat.le_trans ih.1 (by omega),
      fun p hp => ih.2 p (ResendMap.mem_on_nack_into hp)⟩
  | stales t' buf _ hle ih =>
    unfold CacheInv ResendMap.process_stales
    split
    · exact ⟨Nat.le_trans ih.1 (by omega), ih.2⟩
    · refine ⟨ResendMap.foldl_min_le_init _ _, ?_⟩
      intro p hp
      exact ResendMap.foldl_min_le_mem _ _ p hp

/-- C3: on every reachable `ResendMap`, `process_stales` at the current
instant `now` behaves exactly like a full scan, despite the
`last_record_expired_at` short-circuit: every entry with
`expired_at ≤ now` (the deadline `expired_at = now` included) has its
frames moved into the buffer and is deleted, and every entry with
`expired_at > now` is retained.  The cache invariant proved in
`reach_cacheInv` makes the short-circuit branch sound even though
`record` never updates the cache. -/
theorem c3_process_stales_full_scan {α : Type} {m : ResendMap α} {t : Nat}
    (hreach : Reach α m t) (now : Nat) (hnow : t ≤ now) (buf : List α) :
    (m.process_stales now buf).1.entries =
      m.entries.filter (fun p => now < p.2.expiredAt) ∧
    (m.process_stales now buf).2 =
      buf ++ ((m.entries.filter (fun p => p.2.expiredAt ≤ now)).map
        (·.2.frames)).flatten := by
  have hinv := reach_cacheInv hreach
  unfold ResendMap.process_stales
  by_cases hlt : now < m.lastRecordExpiredAt
  · rw [if_pos hlt]
    have hall : ∀ p ∈ m.entries, now < p.2.expiredAt := fun p hp =>
      Nat.lt_of_lt_of_le hlt (hinv.2 p hp)
    constructor
    · symm
      rw [List.filter_eq_self]
      intro p hp
      simpa using hall p hp
    · have hnil : m.entries.filter (fun p => p.2.expiredAt ≤ now) = [] := by
        rw [List.filter_eq_nil_iff]
        intro p hp
        simpa using Nat.not_le.mpr (hall p hp)
      rw [hnil]
      simp
  · rw [if_neg hlt]
    constructor
    · refine List.filter_congr ?_
      intro p _
      by_cases h : p.2.expiredAt ≤ now
      · simp [h, Nat.not_lt.mpr h]
      · simp [h, Nat.gt_of_not_le h]
    · rfl

/-- Witness for C3 on a concrete reachable map with one expired entry. -/
theorem c3_witness :
    (((ResendMap.new Nat 0).record 7 [42] 5).process_stales 5000 []).2 = [42] := by
  have h := c3_process_stales_full_scan
    (Reach.record 5 7 [42] (Reach.init 0) (by omega)) 5000 (by omega) []
  rw [h.2]
  rfl

/-- Result of `ResendMap::poll_wait`: `Poll::Ready(())`, or
`Poll::Pending` after arming the timer reactor with a deadline. -/
inductive PollResult where
  | ready
  | pending (deadline : Nat)
  deriving Repr, DecidableEq

namespace ResendMap

/-- The minimum `expired_at` over the map's entries, the key the source
computes with `min_by_key` (the armed deadline is this minimum value,
whichever tied entry `min_by_key` picks). -/
def minExpired (m : ResendMap α) : Option Nat :=
  (m.entries.map (·.2.expiredAt)).min?

/-- `ResendMap::poll_wait`: if some entry exists and the minimum
`expired_at` is still in the future, arm the reactor at that deadline and
report `Pending`; otherwise report `Ready`. -/
def poll_wait (m : ResendMap α) (now : Nat) : PollResult :=
  match m.minExpired with
  | some d => if now < d then .pending d else .ready
  | none => .ready

end ResendMap

/-- C7: `poll_wait` is `Ready` on an empty map; on a non-empty map whose
minimum `expired_at` is strictly after `now` it arms the reactor at
exactly that minimum and reports `Pending`; a map whose earliest entry is
already expired (minimum `≤ now`) yields `Ready`; and every armed
deadline is strictly greater than `now`. -/
theorem c7_poll_wait_spec {α : Type} (m : ResendMap α) (now : Nat) :
    (m.entries = [] → m.poll_wait now = .ready) ∧
    (∀ d : Nat, m.minExpired = some d → now < d → m.poll_wait now = .pending d) ∧
    (∀ d : Nat, m.minExpired = some d → d ≤ now → m.poll_wait now = .ready) ∧
    (∀ d : Nat, m.poll_wait now = .pending d → now < d ∧ m.minExpired = some d) := by
  refine ⟨?_, ?_, ?_, ?_⟩
  · intro he
    unfold ResendMap.poll_wait ResendMap.minExpired
    rw [he]
    rfl
  · intro d hd hlt
    simp [ResendMap.poll_wait, hd, hlt]
  · intro d hd hle
    simp [ResendMap.poll_wait, hd, Nat.not_lt.mpr hle]
  · intro d hp
    unfold ResendMap.poll_wait at hp
    cases hm : m.minExpired with
    | some e =>
      rw [hm] at hp
      by_cases hlt : now < e
      · simp only [if_pos hlt] at hp
        cases hp
        exact ⟨hlt, rfl⟩
      · simp only [if_neg hlt] at hp
        cases hp
    | none =>
      rw [hm] at hp
      cases hp

/-- Witness for C7: a map with earliest deadline 60 polled at instant 10
arms the reactor at 60. -/
theorem c7_witness :
    (⟨[(4, ⟨[1], 60⟩), (5, ⟨[2], 90⟩)], 0⟩ : ResendMap Nat).poll_wait 10 =
      .pending 60 := by
  exact (c7_poll_wait_spec (⟨[(4, ⟨[1], 60⟩), (5, ⟨[2], 90⟩)], 0⟩ : ResendMap Nat)
    10).2.1 60 (by decide) (by decide)

/-- Decidable equality on `Except`, needed to `decide` facts about the
modelled fallible parsers. -/
instance {ε α : Type} [DecidableEq ε] [DecidableEq α] :
    DecidableEq (Except ε α) := fun a b =>
  match a, b with
  | .ok x, .ok y =>
      if h : x = y then .isTrue (by rw [h])
      else .isFalse (by intro hc; cases hc; exact h rfl)
  | .ok _, .error _ => .isFalse (by intro hc; cases hc)
  | .error _, .ok _ => .isFalse (by intro hc; cases hc)
  | .error e, .error f =>
      if h : e = f then .isTrue (by rw [h])
      else .isFalse (by intro hc; cases hc; exact h rfl)

/-- `CodecError` from src/errors.rs, in the variants src/packet/mod.rs
constructs. -/
inductive CodecError where
  | invalidPacketId (id : Nat)
  | invalidPacketLength (what : String)
  | invalidIPVer (ver : Nat)
  | invalidIPV6Family (family : Nat)
  | magicNotMatched (offset byte : Nat)
  deriving Repr, DecidableEq

/-- `PackId` from src/packet/mod.rs, with its `repr(u8)` discriminants in
`PackId.toU8`. -/
inductive PackId where
  | connectedPing
  | unconnectedPing1
  | unconnectedPing2
  | connectedPong
  | lostConnections
  | openConnectionRequest1
  | openConnectionReply1
  | openConnectionRequest2
  | openConnectionReply2
  | connectionRequest
  | connectionRequestAccepted
  | connectionRequestFailed
  | alreadyConnected
  | newIncomingConnection
  | noFreeIncomingConnections
  | disconnectNotification
  | connectionLost
  | connectionBanned
  | incompatibleProtocolVersion
  | ipRecentlyConnected
  | timestamp
  | unconnectedPong
  | advertiseSystem
  | game
  | ack
  | nack
  | frameSet
  deriving Repr, DecidableEq

/-- `impl From<PackId> for u8`: the `repr(u8)` discriminant
(`ACK_FLAG = 0xC0`, `NACK_FLAG = 0xA0`, `VALID_FLAG = 0x80`). -/
def PackId.toU8 : PackId → Nat
  | .connectedPing => 0x00
  | .unconnectedPing1 => 0x01
  | .unconnectedPing2 => 0x02
  | .connectedPong => 0x03
  | .lostConnections => 0x04
  | .openConnectionRequest1 => 0x05
  | .openConnectionReply1 => 0x06
  | .openConnectionRequest2 => 0x07
  | .openConnectionReply2 => 0x08
  | .connectionRequest => 0x09
  | .connectionRequestAccepted => 0x10
  | .connectionRequestFailed => 0x11
  | .alreadyConnected => 0x12
  | .newIncomingConnection => 0x13
  | .noFreeIncomingConnections => 0x14
  | .disconnectNotification => 0x15
  | .connectionLost => 0x16
  | .connectionBanned => 0x17
  | .incompatibleProtocolVersion => 0x19
  | .ipRecentlyConnected => 0x1a
  | .timestamp => 0x1b
  | .unconnectedPong => 0x1c
  | .advertiseSystem => 0x1d
  | .game => 0xfe
  | .ack => 0xC0
  | .nack => 0xA0
  | .frameSet => 0x80

/-- `PackId::from_u8`, arm for arm in the source's match order: the fixed
table of exact ids first, then the open ranges `ACK_FLAG..`, `NACK_FLAG..`
and `VALID_FLAG..`, and `InvalidPacketId` for everything else. -/
def PackId.fromU8 (id : Nat) : Except CodecError PackId :=
  if id = 0x00 then .ok .connectedPing
  else if id = 0x01 then .ok .unconnectedPing1
  else if id = 0x02 then .ok .unconnectedPing2
  else if id = 0x03 then .ok .connectedPong
  else if id = 0x04 then .ok .lostConnections
  else if id = 0x05 then .ok .openConnectionRequest1
  else if id = 0x06 then .ok .openConnectionReply1
  else if id = 0x07 then .ok .openConnectionRequest2
  else if id = 0x08 then .ok .openConnectionReply2
  else if id = 0x09 then .ok .connectionRequest
  else if id = 0x10 then .ok .connectionRequestAccepted
  else if id = 0x12 then .ok .alreadyConnected
  else if id = 0x13 then .ok .newIncomingConnection
  else if id = 0x15 then .ok .disconnectNotification
  else if id = 0x19 then .ok .incompatibleProtocolVersion
  else if id = 0x1c then .ok .unconnectedPong
  else if id = 0xfe then .ok .game
  else if 0xC0 ≤ id then .ok .ack
  else if 0xA0 ≤ id then .ok .nack
  else if 0x80 ≤ id then .ok .frameSet
  else .error (.invalidPacketId id)

/-- Counterexample for C6: the fixed table has no arm for `0x11`
(`ConnectionRequestFailed`); `from_u8 0x11` is an error, not
`Ok(ConnectionRequestFailed)` as the claim states. -/
theorem c6_counterexample :
    PackId.fromU8 0x11 = .error (.invalidPacketId 0x11) ∧
    PackId.fromU8 0x11 ≠ .ok .connectionRequestFailed := by
  decide

set_option maxRecDepth 4000 in
/-- C6 (amended): `from_u8` classifies bytes with bit `0x80` set as
connected family — `Ack` for bytes `≥ 0xC0`, `Nack` for `0xA0..=0xBF`,
`FrameSet` for `0x80..=0x9F` — except `0xFE` which is `Game`; it maps the
exact table `{00,01,02,03,04,05,06,07,08,09,10,12,13,15,19,1c,fe}` to the
matching `PackId` (this table lacks `ConnectionRequestFailed = 0x11` and
contains `LostConnections = 0x04`, `ConnectionRequest = 0x09` and
`ConnectionRequestAccepted = 0x10`); every other byte is
`Err(InvalidPacketId)`. -/
theorem c6_from_u8_table :
    (∀ id : Nat, id < 256 → 0xC0 ≤ id → id ≠ 0xFE → PackId.fromU8 id = .ok .ack) ∧
    (∀ id : Nat, id < 0xC0 → 0xA0 ≤ id → PackId.fromU8 id = .ok .nack) ∧
    (∀ id : Nat, id < 0xA0 → 0x80 ≤ id → PackId.fromU8 id = .ok .frameSet) ∧
    PackId.fromU8 0x00 = .ok .connectedPing ∧
    PackId.fromU8 0x01 = .ok .unconnectedPing1 ∧
    PackId.fromU8 0x02 = .ok .unconnectedPing2 ∧
    PackId.fromU8 0x03 = .ok .connectedPong ∧
    PackId.fromU8 0x04 = .ok .lostConnections ∧
    PackId.fromU8 0x05 = .ok .openConnectionRequest1 ∧
    PackId.fromU8 0x06 = .ok .openConnectionReply1 ∧
    PackId.fromU8 0x07 = .ok .openConnectionRequest2 ∧
    PackId.fromU8 0x08 = .ok .openConnectionReply2 ∧
    PackId.fromU8 0x09 = .ok .connectionRequest ∧
    PackId.fromU8 0x10 = .ok .connectionRequestAccepted ∧
    PackId.fromU8 0x12 = .ok .alreadyConnected ∧
    PackId.fromU8 0x13 = .ok .newIncomingConnection ∧
    PackId.fromU8 0x15 = .ok .disconnectNotification ∧
    PackId.fromU8 0x19 = .ok .incompatibleProtocolVersion ∧
    PackId.fromU8 0x1c = .ok .unconnectedPong ∧
    PackId.fromU8 0xfe = .ok .game ∧
    (∀ id : Nat, id < 0x80 →
      id ∉ ([0x00, 0x01, 0x02, 0x03, 0x04, 0x05, 0x06, 0x07, 0x08, 0x09,
             0x10, 0x12, 0x13, 0x15, 0x19, 0x1c] : List Nat) →
      PackId.fromU8 id = .error (.invalidPacketId id)) := by
  refine ⟨?_, ?_, ?_, ?_, ?_, ?_, ?_, ?_, ?_, ?_, ?_, ?_, ?_, ?_, ?_, ?_,
    ?_, ?_, ?_, ?_, ?_⟩ <;> decide

/-- Witness for C6 at concrete bytes in each range. -/
theorem c6_witness :
    PackId.fromU8 0xC5 = .ok .ack ∧ PackId.fromU8 0xB0 = .ok .nack ∧
    PackId.fromU8 0x90 = .ok .frameSet ∧
    PackId.fromU8 0x42 = .error (.invalidPacketId 0x42) :=
  ⟨c6_from_u8_table.1 0xC5 (by decide) (by decide) (by decide),
   c6_from_u8_table.2.1 0xB0 (by decide) (by decide),
   c6_from_u8_table.2.2.1 0x90 (by decide) (by decide),
   c6_from_u8_table.2.2.2.2.2.2.2.2.2.2.2.2.2.2.2.2.2.2.2.2
     0x42 (by decide) (by decide)⟩

/-- Big-endian byte encoding on `w` bytes, the model of `put_u16`,
`put_u32`, `put_u128` and of `put_slice` on `octets()` (octets are the
big-endian bytes of the address bits). -/
def beBytes : Nat → Nat → List Nat
  | 0, _ => []
  | w + 1, n => (n / 256 ^ w % 256) :: beBytes w (n % 256 ^ w)

/-- Big-endian read of `w` bytes with accumulator, the model of `get_u16`,
`get_u32`, `get_u128` (callers check `remaining` first, as the source's
`read_buf!` does, so the empty case is never reached there). -/
def getBeAux : Nat → Nat → List Nat → Nat × List Nat
  | acc, 0, l => (acc, l)
  | acc, _ + 1, [] => (acc, [])
  | acc, w + 1, b :: l => getBeAux (acc * 256 + b) w l

/-- Big-endian read of `w` bytes. -/
def getBe (w : Nat) (l : List Nat) : Nat × List Nat :=
  getBeAux 0 w l

theorem beBytes_length (w n : Nat) : (beBytes w n).length = w := by
  induction w generalizing n with
  | zero => rfl
  | succ w ih => simp [beBytes, ih]

theorem getBeAux_beBytes (w : Nat) : ∀ (acc n : Nat) (rest : List Nat),
    n < 256 ^ w →
    getBeAux acc w (beBytes w n ++ rest) = (acc * 256 ^ w + n, rest) := by
  induction w with
  | zero =>
    intro acc n rest hn
    interval_cases n
    simp [beBytes, getBeAux]
  | succ w ih =>
    intro acc n rest hn
    have hmod : n % 256 ^ w < 256 ^ w := Nat.mod_lt _ (Nat.pos_pow_of_pos w (by omega))
    have hdiv : n / 256 ^ w < 256 := by
      have := Nat.pow_lt_pow_succ (a := 256) (by omega) (n := w)
      exact Nat.div_lt_of_lt_mul (by
        calc n < 256 ^ (w + 1) := hn
        _ = 256 ^ w * 256 := by rw [Nat.pow_succ])
    have hdm : n / 256 ^ w % 256 = n / 256 ^ w := Nat.mod_eq_of_lt hdiv
    show getBeAux acc (w + 1) ((n / 256 ^ w % 256) :: (beBytes w (n % 256 ^ w) ++ rest)) = _
    rw [getBeAux, ih _ _ rest hmod, hdm]
    have harith : (acc * 256 + n / 256 ^ w) * 256 ^ w + n % 256 ^ w =
        acc * (256 ^ w * 256) + (256 ^ w * (n / 256 ^ w) + n % 256 ^ w) := by
      ring
    rw [harith, Nat.div_add_mod, ← Nat.pow_succ]

theorem getBe_beBytes (w n : Nat) (rest : List Nat) (hn : n < 256 ^ w) :
    getBe w (beBytes w n ++ rest) = (n, rest) := by
  unfold getBe
  rw [getBeAux_beBytes w 0 n rest hn]
  simp

/-- A socket address as src/packet/mod.rs reads and writes it: IPv4 carries
the 32 address bits and the port; IPv6 carries the 128 address bits, port,
flow info and scope id. -/
inductive RSocketAddr where
  | v4 (ip port : Nat)
  | v6 (ip port flowinfo scope : Nat)
  deriving Repr, DecidableEq

/-- `put_socket_addr` from src/packet/mod.rs:
`04 | be32(ip) | be16(port)` for IPv4,
`06 | be16(0x17) | be16(port) | be32(flow) | 16 ip bytes | be32(scope)`
for IPv6. -/
def put_socket_addr : RSocketAddr → List Nat
  | .v4 ip port => 4 :: (beBytes 4 ip ++ beBytes 2 port)
  | .v6 ip port flow scope =>
      6 :: (beBytes 2 0x17 ++ beBytes 2 port ++ beBytes 4 flow ++
        beBytes 16 ip ++ beBytes 4 scope)

/-- `get_socket_addr` from src/packet/mod.rs: dispatch on the version
byte, check `remaining` like `read_buf!`, reject an IPv6 family other
than `0x17`, and consume exactly the encoded fields. -/
def get_socket_addr (l : List Nat) :
    Except CodecError (RSocketAddr × List Nat) :=
  match l with
  | [] => .error (.invalidPacketLength "particular sized pack")
  | ver :: rest =>
    if ver = 4 then
      if rest.length < 6 then .error (.invalidPacketLength "particular sized pack")
      else
        let (ip, r1) := getBe 4 rest
        let (port, r2) := getBe 2 r1
        .ok (.v4 ip port, r2)
    else if ver = 6 then
      if rest.length < 28 then .error (.invalidPacketLength "particular sized pack")
      else
        let (family, r1) := getBe 2 rest
        if family ≠ 0x17 then .error (.invalidIPV6Family family)
        else
          let (port, r2) := getBe 2 r1
          let (flow, r3) := getBe 4 r2
          let (ip, r4) := getBe 16 r3
          let (scope, r5) := getBe 4 r4
          .ok (.v6 ip port flow scope, r5)
    else .error (.invalidIPVer ver)

/-- Well-formedness from the Rust types: each field fits its width. -/
def RSocketAddr.wf : RSocketAddr → Prop
  | .v4 ip port => ip < 256 ^ 4 ∧ port < 256 ^ 2
  | .v6 ip port flow scope =>
      ip < 256 ^ 16 ∧ port < 256 ^ 2 ∧ flow < 256 ^ 4 ∧ scope < 256 ^ 4

/-- C9: decoding after encoding is the identity: for every well-formed
socket address, `get_socket_addr` applied to a buffer beginning with the
bytes `put_socket_addr` writes (IPv4: `04 | be32(ip) | be16(port)`; IPv6:
`06 | be16(0x17) | be16(port) | be32(flow) | 16 ip bytes | be32(scope)`)
consumes exactly those bytes and returns the original address. -/
theorem c9_socket_addr_roundtrip (a : RSocketAddr) (h : a.wf) (rest : List Nat) :
    get_socket_addr (put_socket_addr a ++ rest) = .ok (a, rest) := by
  cases a with
  | v4 ip port =>
    obtain ⟨hip, hport⟩ := h
    simp [put_socket_addr, get_socket_addr, List.append_assoc,
      getBe_beBytes 4 ip (beBytes 2 port ++ rest) hip,
      getBe_beBytes 2 port rest hport]
    all_goals simp [beBytes_length]
    all_goals omega
  | v6 ip port flow scope =>
    obtain ⟨hip, hport, hflow, hscope⟩ := h
    simp [put_socket_addr, get_socket_addr, List.append_assoc,
      getBe_beBytes 2 0x17 _ (by norm_num),
      getBe_beBytes 2 port _ hport,
      getBe_beBytes 4 flow _ hflow,
      getBe_beBytes 16 ip _ hip,
      getBe_beBytes 4 scope rest hscope]
    all_goals simp [beBytes_length]
    all_goals omega

/-- Witness for C9 on concrete IPv4 and IPv6 addresses. -/
theorem c9_witness :
    get_socket_addr (put_socket_addr (.v4 0xC0A80101 0x1234) ++ [9, 9]) =
      .ok (.v4 0xC0A80101 0x1234, [9, 9]) ∧
    get_socket_addr (put_socket_addr (.v6 1 2 3 4) ++ [7]) =
      .ok (.v6 1 2 3 4, [7]) :=
  ⟨c9_socket_addr_roundtrip _ (by norm_num [RSocketAddr.wf]) [9, 9],
   c9_socket_addr_roundtrip _ (by norm_num [RSocketAddr.wf]) [7]⟩

/-- `PackId::is_frame_set`. -/
def PackId.is_frame_set : PackId → Bool
  | .frameSet => true
  | _ => false

/-- `PackId::is_ack`. -/
def PackId.is_ack : PackId → Bool
  | .ack => true
  | _ => false

/-- `PackId::is_nack`. -/
def PackId.is_nack : PackId → Bool
  | .nack => true
  | _ => false

/-- The body parsers `Packet::read` dispatches to.  They live in
packet/connected and packet/unconnected (outside src/); each returns a
parsed packet or a `CodecError` — their `Result` type cannot produce
`Ok(None)`.  `conn` and `unc` are the connected and unconnected packet
types. -/
structure SubReaders (conn unc : Type) where
  readFrameSet : List Nat → Except CodecError conn
  readAck : List Nat → Except CodecError conn
  readNack : List Nat → Except CodecError conn
  readUnconnectedPing : List Nat → Except CodecError unc
  readUnconnectedPong : List Nat → Except CodecError unc
  readOpenConnectionRequest1 : List Nat → Except CodecError unc
  readOpenConnectionReply1 : List Nat → Except CodecError unc
  readIncompatibleProtocol : List Nat → Except CodecError unc
  readAlreadyConnected : List Nat → Except CodecError unc
  readOpenConnectionRequest2 : List Nat → Except CodecError unc
  readOpenConnectionReply2 : List Nat → Except CodecError unc

/-- `Packet` from src/packet/mod.rs: connected or unconnected. -/
inductive RPacket (conn unc : Type) where
  | connected (p : conn)
  | unconnected (p : unc)

/-- `Packet::read` from src/packet/mod.rs: empty buffer is `Ok(None)`;
otherwise parse the id byte with `from_u8` (`?` propagates its error),
dispatch the connected family, then the fixed unconnected table with the
`read_buf!` length guards, with `InvalidPacketId` for ids with no arm. -/
def packet_read {conn unc : Type} (R : SubReaders conn unc) (buf : List Nat) :
    Except CodecError (Option (RPacket conn unc)) :=
  match buf with
  | [] => .ok none
  | b :: rest =>
    match PackId.fromU8 b with
    | .error e => .error e
    | .ok pid =>
      if pid.is_frame_set then
        (R.readFrameSet rest).map (fun p => some (.connected p))
      else if pid.is_ack then
        (R.readAck rest).map (fun p => some (.connected p))
      else if pid.is_nack then
        (R.readNack rest).map (fun p => some (.connected p))
      else
        (show Except CodecError unc from
         match pid with
         | .unconnectedPing1 =>
             if rest.length < 32 then .error (.invalidPacketLength "particular sized pack")
             else R.readUnconnectedPing rest
         | .unconnectedPing2 =>
             if rest.length < 32 then .error (.invalidPacketLength "particular sized pack")
             else R.readUnconnectedPing rest
         | .unconnectedPong =>
             if rest.length < 32 then .error (.invalidPacketLength "particular sized pack")
             else R.readUnconnectedPong rest
         | .openConnectionRequest1 =>
             if rest.length < 19 then .error (.invalidPacketLength "particular sized pack")
             else R.readOpenConnectionRequest1 rest
         | .openConnectionReply1 =>
             if rest.length < 27 then .error (.invalidPacketLength "particular sized pack")
             else R.readOpenConnectionReply1 rest
         | .incompatibleProtocolVersion =>
             if rest.length < 25 then .error (.invalidPacketLength "particular sized pack")
             else R.readIncompatibleProtocol rest
         | .alreadyConnected =>
             if rest.length < 24 then .error (.invalidPacketLength "particular sized pack")
             else R.readAlreadyConnected rest
         | .openConnectionRequest2 => R.readOpenConnectionRequest2 rest
         | .openConnectionReply2 => R.readOpenConnectionReply2 rest
         | _ => .error (.invalidPacketId pid.toU8)).map (fun p => some (.unconnected p))

theorem map_some_ne_ok_none {X Y : Type} (r : Except CodecError X)
    (f : X → Y) : r.map (fun p => some (f p)) ≠ .ok none := by
  cases r <;> simp [Except.map]

/-- C10: `Packet::read` returns `Ok(None)` exactly on the empty buffer —
an empty datagram is not a codec error — and on every non-empty buffer,
whatever the body parsers do, the result is a parsed packet or an error,
never `Ok(None)`. -/
theorem c10_read_ok_none_iff_empty {conn unc : Type} (R : SubReaders conn unc)
    (buf : List Nat) : packet_read R buf = .ok none ↔ buf = [] := by
  constructor
  · intro h
    cases buf with
    | nil => rfl
    | cons b rest =>
      exfalso
      cases hb : PackId.fromU8 b with
      | error e =>
        simp only [packet_read, hb] at h
        exact Except.noConfusion h
      | ok pid =>
        simp only [packet_read, hb] at h
        split at h
        · exact map_some_ne_ok_none _ _ h
        · split at h
          · exact map_some_ne_ok_none _ _ h
          · split at h
            · exact map_some_ne_ok_none _ _ h
            · exact map_some_ne_ok_none _ _ h
  · intro h
    subst h
    rfl

/-- The loop of `slice::binary_search` (compare the middle element, then
recurse into the half that can contain the target), returning only the
`is_ok()` bit the offline handler consumes.  `fuel` bounds the iteration
count; `hi - lo` shrinks every round, so `length + 1` fuel suffices. -/
def bsearchGo (l : List Nat) (t : Nat) : Nat → Nat → Nat → Bool
  | 0, _, _ => false
  | fuel + 1, lo, hi =>
    if lo < hi then
      let mid := (lo + hi) / 2
      let v := l.getD mid 0
      if v < t then bsearchGo l t fuel (mid + 1) hi
      else if t < v then bsearchGo l t fuel lo mid
      else true
    else false

/-- `support_version.binary_search(&v).is_ok()`. -/
def binary_search_is_ok (l : List Nat) (t : Nat) : Bool :=
  bsearchGo l t (l.length + 1) 0 l.length

theorem sorted_getD {l : List Nat} (hs : l.Sorted (· ≤ ·)) {i j : Nat}
    (hij : i ≤ j) (hj : j < l.length) : l.getD i 0 ≤ l.getD j 0 := by
  have hi : i < l.length := Nat.lt_of_le_of_lt hij hj
  rw [List.getD_eq_get?, List.getD_eq_get?, List.get?_eq_get hi,
    List.get?_eq_get hj]
  exact hs.rel_get_of_le (Fin.mk_le_mk.mpr hij)

theorem bsearchGo_complete (l : List Nat) (t : Nat)
    (hs : l.Sorted (· ≤ ·)) :
    ∀ (fuel lo hi : Nat), hi ≤ l.length → hi - lo ≤ fuel →
    (∃ i, lo ≤ i ∧ i < hi ∧ l.getD i 0 = t) →
    bsearchGo l t fuel lo hi = true := by
  intro fuel
  induction fuel with
  | zero =>
    rintro lo hi _ hfuel ⟨i, h1, h2, _⟩
    omega
  | succ fuel ih =>
    rintro lo hi hlen hfuel ⟨i, hlo, hhi, hit⟩
    have hlohi : lo < hi := by omega
    unfold bsearchGo
    rw [if_pos hlohi]
    by_cases h1 : l.getD ((lo + hi) / 2) 0 < t
    · rw [if_pos h1]
      refine ih ((lo + hi) / 2 + 1) hi hlen (by omega) ⟨i, ?_, hhi, hit⟩
      by_contra hle
      push_neg at hle
      have := sorted_getD hs (by omega : i ≤ (lo + hi) / 2) (by omega)
      omega
    · rw [if_neg h1]
      by_cases h2 : t < l.getD ((lo + hi) / 2) 0
      · rw [if_pos h2]
        refine ih lo ((lo + hi) / 2) (by omega) (by omega) ⟨i, hlo, ?_, hit⟩
        by_contra hge
        push_neg at hge
        have := sorted_getD hs hge (by omega : i < l.length)
        omega
      · rw [if_neg h2]

theorem binary_search_complete {l : List Nat} {t : Nat}
    (hs : l.Sorted (· ≤ ·)) (hmem : t ∈ l) : binary_search_is_ok l t = true := by
  obtain ⟨⟨i, hi⟩, hget⟩ := List.mem_iff_get.mp hmem
  refine bsearchGo_complete l t hs (l.length + 1) 0 l.length (Nat.le_refl _)
    (by omega) ⟨i, Nat.zero_le _, hi, ?_⟩
  rw [List.getD_eq_get?, List.get?_eq_get hi]
  simpa using hget

/-- `Peer` from the crate root: negotiated remote address and MTU.
Socket addresses are opaque (modelled as `Nat`). -/
structure Peer where
  addr : Nat
  mtu : Nat
  deriving Repr, DecidableEq

/-- The unconnected packets src/server/offline.rs constructs or matches
(packet/unconnected lives outside src/; variants and fields are those the
handler uses; `magic` carries no data and is omitted; `Bytes` payloads are
opaque `Nat`). -/
inductive UnconnectedPacket where
  | unconnectedPing (sendTimestamp clientGuid : Nat)
  | unconnectedPong (sendTimestamp serverGuid advertisement : Nat)
  | openConnectionRequest1 (protocolVersion mtu : Nat)
  | openConnectionReply1 (serverGuid : Nat) (useEncryption : Bool) (mtu : Nat)
  | openConnectionRequest2 (serverAddress mtu clientGuid : Nat)
  | openConnectionReply2 (serverGuid clientAddress mtu : Nat) (encryptionEnabled : Bool)
  | incompatibleProtocol (serverProtocol serverGuid : Nat)
  | alreadyConnected (serverGuid : Nat)
  | connectionRequestFailed (serverGuid : Nat)
  deriving Repr, DecidableEq

/-- `Config` from src/server/offline.rs (the source spells the field
`sever_guid`). -/
structure Config where
  severGuid : Nat
  advertisement : Nat
  minMtu : Nat
  maxMtu : Nat
  supportVersion : List Nat
  maxPending : Nat
  deriving Repr, DecidableEq

/-- Association-list lookup for the `connected` hash map. -/
def lookupAssoc {β : Type} (l : List (Nat × β)) (k : Nat) : Option β :=
  (l.find? (fun p => p.1 = k)).map (·.2)

/-- Association-list insert for the `connected` hash map. -/
def insertAssoc {β : Type} (l : List (Nat × β)) (k : Nat) (v : β) :
    List (Nat × β) :=
  (k, v) :: l.filter (fun p => p.1 ≠ k)

/-- `lru::LruCache::put` on a most-recent-first list: refresh an existing
key to the front returning the old value, or push the new entry and evict
the least-recently-used tail entry when past capacity. -/
def lruPut (cap : Nat) (l : List (Nat × Nat)) (k v : Nat) :
    List (Nat × Nat) × Option Nat :=
  match l.find? (fun p => p.1 = k) with
  | some old => ((k, v) :: l.filter (fun p => p.1 ≠ k), some old.2)
  | none =>
      (if cap < l.length + 1 then ((k, v) :: l).dropLast else (k, v) :: l, none)

/-- `lru::LruCache::pop`: remove the key, returning its value when
present. -/
def lruPop (l : List (Nat × Nat)) (k : Nat) :
    List (Nat × Nat) × Option Nat :=
  (l.filter (fun p => p.1 ≠ k), (l.find? (fun p => p.1 = k)).map (·.2))

/-- The mutable state of the server `OfflineHandler`: the `pending` LRU
(address ↦ protocol version) and the `connected` map (address ↦ Peer). -/
structure ServerState where
  pending : List (Nat × Nat)
  connected : List (Nat × Peer)
  deriving Repr, DecidableEq

/-- A packet arriving at the handler: unconnected, or connected with an
opaque payload `β`. -/
inductive ServerPacket (β : Type) where
  | unconnected (p : UnconnectedPacket)
  | connected (p : β)
  deriving Repr, DecidableEq

/-- What one `poll_next` iteration does with a packet: send a reply to the
sender, yield a connected packet and its peer to the online pipeline, or
log and drop. -/
inductive ServerAction (β : Type) where
  | sends (resp : UnconnectedPacket)
  | yields (pack : β) (peer : Peer)
  | ignores
  deriving Repr, DecidableEq

/-- `OfflineHandler::make_incompatible_version`
(`support_version.last().unwrap()`; the handler is only built with a
non-empty sorted version list, modelled with `getLastD`). -/
def make_incompatible_version (cfg : Config) : UnconnectedPacket :=
  .incompatibleProtocol (cfg.supportVersion.getLastD 0) cfg.severGuid

/-- `OfflineHandler::make_already_connected`. -/
def make_already_connected (cfg : Config) : UnconnectedPacket :=
  .alreadyConnected cfg.severGuid

/-- `OfflineHandler::make_connection_request_failed`. -/
def make_connection_request_failed (cfg : Config) : UnconnectedPacket :=
  .connectionRequestFailed cfg.severGuid

/-- One iteration of `OfflineHandler::poll_next` on a decoded packet from
`addr`, arm for arm from src/server/offline.rs. -/
def handlePacket {β : Type} (cfg : Config) (st : ServerState)
    (pkt : ServerPacket β) (addr : Nat) : ServerState × ServerAction β :=
  match pkt with
  | .connected pack =>
      match lookupAssoc st.connected addr with
      | some peer => (st, .yields pack peer)
      | none => (st, .sends (make_connection_request_failed cfg))
  | .unconnected pack =>
      match pack with
      | .unconnectedPing ts _ =>
          (st, .sends (.unconnectedPong ts cfg.severGuid cfg.advertisement))
      | .openConnectionRequest1 ver mtu =>
          if binary_search_is_ok cfg.supportVersion ver = false then
            (st, .sends (make_incompatible_version cfg))
          else
            ({ st with pending := (lruPut cfg.maxPending st.pending addr ver).1 },
             .sends (.openConnectionReply1 cfg.severGuid false
               (min cfg.maxMtu (max cfg.minMtu mtu))))
      | .openConnectionRequest2 _ mtu _ =>
          match lruPop st.pending addr with
          | (pending1, some _) =>
              if mtu < cfg.minMtu ∨ cfg.maxMtu < mtu ∨
                  (lookupAssoc st.connected addr).isSome then
                ({ st with pending := pending1 },
                 .sends (make_already_connected cfg))
              else
                ({ pending := pending1,
                   connected := insertAssoc st.connected addr ⟨addr, mtu⟩ },
                 .sends (.openConnectionReply2 cfg.severGuid addr mtu false))
          | (_, none) => (st, .sends (make_incompatible_version cfg))
      | _ => (st, .ignores)

/-- The clamp the specification words the MTU negotiation with. -/
def clamp (x lo hi : Nat) : Nat := min hi (max lo x)

theorem lruPut_head (cap : Nat) (l : List (Nat × Nat)) (k v : Nat)
    (hcap : 1 ≤ cap) :
    ∃ rest, (lruPut cap l k v).1 = (k, v) :: rest := by
  unfold lruPut
  cases hf : l.find? (fun p => p.1 = k) with
  | some old => exact ⟨_, rfl⟩
  | none =>
    by_cases hlen : cap < l.length + 1
    · refine ⟨l.dropLast, ?_⟩
      show (if cap < l.length + 1 then ((k, v) :: l).dropLast else (k, v) :: l) = _
      rw [if_pos hlen]
      cases l with
      | nil =>
        simp at hlen
        omega
      | cons a as => rfl
    · refine ⟨l, ?_⟩
      show (if cap < l.length + 1 then ((k, v) :: l).dropLast else (k, v) :: l) = _
      rw [if_neg hlen]

theorem lruPop_lruPut (cap : Nat) (l : List (Nat × Nat)) (k v : Nat)
    (hcap : 1 ≤ cap) :
    (lruPop (lruPut cap l k v).1 k).2 = some v := by
  obtain ⟨rest, hr⟩ := lruPut_head cap l k v hcap
  rw [hr]
  simp [lruPop]

theorem lookup_insertAssoc {β : Type} (l : List (Nat × β)) (k : Nat) (v : β) :
    lookupAssoc (insertAssoc l k v) k = some v := by
  simp [lookupAssoc, insertAssoc]

/-- C8: the server's gate on connected-family packets: a packet from an
address with no entry in the `connected` map is not yielded to the online
pipeline and draws a `ConnectionRequestFailed` reply; a packet from a
connected address is yielded together with that address's `Peer` and no
reply is sent. -/
theorem c8_connected_requires_session {β : Type} (cfg : Config)
    (st : ServerState) (pack : β) (addr : Nat) :
    (∀ peer : Peer, lookupAssoc st.connected addr = some peer →
      handlePacket cfg st (.connected pack) addr = (st, .yields pack peer)) ∧
    (lookupAssoc st.connected addr = none →
      handlePacket cfg st (.connected pack) addr =
        (st, .sends (.connectionRequestFailed cfg.severGuid))) := by
  constructor
  · intro peer hpeer
    simp [handlePacket, hpeer]
  · intro hnone
    simp [handlePacket, hnone, make_connection_request_failed]

/-- Witness for C8 on a one-peer connected map. -/
theorem c8_witness :
    handlePacket ⟨99, 0, 800, 1400, [11], 4⟩ ⟨[], [(1, ⟨1, 1000⟩)]⟩
        (.connected (42 : Nat)) 1 =
      (⟨[], [(1, ⟨1, 1000⟩)]⟩, .yields 42 ⟨1, 1000⟩) ∧
    handlePacket ⟨99, 0, 800, 1400, [11], 4⟩ ⟨[], [(1, ⟨1, 1000⟩)]⟩
        (.connected (42 : Nat)) 2 =
      (⟨[], [(1, ⟨1, 1000⟩)]⟩, .sends (.connectionRequestFailed 99)) :=
  ⟨(c8_connected_requires_session _ _ _ _).1 ⟨1, 1000⟩ (by decide),
   (c8_connected_requires_session _ _ _ _).2 (by decide)⟩

/-- C5: on `OpenConnectionRequest2{mtu}`: a sender absent from `pending`
draws an `IncompatibleProtocol` reply and no Peer is created; a pending
sender whose mtu lies outside `[min_mtu, max_mtu]` or who is already
connected draws `AlreadyConnected` and no Peer is created; otherwise
`Peer{addr, mtu}` enters the connected map and the reply is
`OpenConnectionReply2` carrying the client's address, the same mtu and
encryption disabled. -/
theorem c5_open_connection_request2 {β : Type} (cfg : Config)
    (st : ServerState) (sa mtu guid addr : Nat) :
    ((lruPop st.pending addr).2 = none →
      handlePacket (β := β) cfg st
          (.unconnected (.openConnectionRequest2 sa mtu guid)) addr =
        (st, .sends (.incompatibleProtocol (cfg.supportVersion.getLastD 0)
          cfg.severGuid))) ∧
    (∀ ver : Nat, (lruPop st.pending addr).2 = some ver →
      (mtu < cfg.minMtu ∨ cfg.maxMtu < mtu ∨
        (lookupAssoc st.connected addr).isSome) →
      (handlePacket (β := β) cfg st
          (.unconnected (.openConnectionRequest2 sa mtu guid)) addr).2 =
          .sends (.alreadyConnected cfg.severGuid) ∧
      (handlePacket (β := β) cfg st
          (.unconnected (.openConnectionRequest2 sa mtu guid)) addr).1.connected =
          st.connected) ∧
    (∀ ver : Nat, (lruPop st.pending addr).2 = some ver →
      cfg.minMtu ≤ mtu → mtu ≤ cfg.maxMtu →
      lookupAssoc st.connected addr = none →
      (handlePacket (β := β) cfg st
          (.unconnected (.openConnectionRequest2 sa mtu guid)) addr).2 =
          .sends (.openConnectionReply2 cfg.severGuid addr mtu false) ∧
      lookupAssoc (handlePacket (β := β) cfg st
          (.unconnected (.openConnectionRequest2 sa mtu guid)) addr).1.connected
          addr = some ⟨addr, mtu⟩) := by
  refine ⟨?_, ?_, ?_⟩
  · intro hnone
    cases hpop : lruPop st.pending addr with
    | mk p1 o =>
      rw [hpop] at hnone
      simp only at hnone
      subst hnone
      simp only [handlePacket, hpop, make_incompatible_version]
  · intro ver hsome hbad
    cases hpop : lruPop st.pending addr with
    | mk p1 o =>
      rw [hpop] at hsome
      simp only at hsome
      subst hsome
      simp only [handlePacket, hpop]
      rw [if_pos hbad]
      exact ⟨rfl, rfl⟩
  · intro ver hsome hlo hhi hconn
    cases hpop : lruPop st.pending addr with
    | mk p1 o =>
      rw [hpop] at hsome
      simp only at hsome
      subst hsome
      simp only [handlePacket, hpop]
      rw [if_neg (by simp [hconn]; omega)]
      exact ⟨rfl, lookup_insertAssoc _ _ _⟩

/-- Witness for C5: the three branches at concrete states. -/
theorem c5_witness :
    handlePacket (β := Nat) ⟨99, 0, 800, 1400, [8, 11], 4⟩ ⟨[], []⟩
        (.unconnected (.openConnectionRequest2 7 1000 5)) 1 =
      (⟨[], []⟩, .sends (.incompatibleProtocol 11 99)) ∧
    (handlePacket (β := Nat) ⟨99, 0, 800, 1400, [8, 11], 4⟩ ⟨[(1, 11)], []⟩
        (.unconnected (.openConnectionRequest2 7 200 5)) 1).2 =
      .sends (.alreadyConnected 99) ∧
    lookupAssoc (handlePacket (β := Nat) ⟨99, 0, 800, 1400, [8, 11], 4⟩
        ⟨[(1, 11)], []⟩
        (.unconnected (.openConnectionRequest2 7 1000 5)) 1).1.connected 1 =
      some ⟨1, 1000⟩ :=
  ⟨(c5_open_connection_request2 _ _ _ _ _ _).1 (by decide),
   ((c5_open_connection_request2 _ _ _ _ _ _).2.1 11 (by decide)
     (Or.inl (by decide))).1,
   ((c5_open_connection_request2 _ _ _ _ _ _).2.2 11 (by decide)
     (by decide) (by decide) (by decide)).2⟩

/-- C2: an `OpenConnectionRequest1` whose protocol version is in the
(sorted) `support_version` list draws `OpenConnectionReply1` with
`mtu = clamp(client_mtu, min_mtu, max_mtu)` (assuming
`min_mtu ≤ max_mtu`) and `use_encryption = false`; and the completed
handshake — the client echoing that clamped MTU in
`OpenConnectionRequest2` — exposes a `Peer` whose `mtu` equals
`clamp(client_mtu, min_mtu, max_mtu)`. -/
theorem c2_handshake_mtu_clamp {β : Type} (cfg : Config) (st : ServerState)
    (addr ver m sa guid : Nat)
    (hsorted : cfg.supportVersion.Sorted (· ≤ ·))
    (hmem : ver ∈ cfg.supportVersion)
    (hmtu : cfg.minMtu ≤ cfg.maxMtu)
    (hcap : 1 ≤ cfg.maxPending)
    (hconn : lookupAssoc st.connected addr = none) :
    (handlePacket (β := β) cfg st
        (.unconnected (.openConnectionRequest1 ver m)) addr).2 =
      .sends (.openConnectionReply1 cfg.severGuid false
        (clamp m cfg.minMtu cfg.maxMtu)) ∧
    (handlePacket (β := β) cfg
        (handlePacket (β := β) cfg st
          (.unconnected (.openConnectionRequest1 ver m)) addr).1
        (.unconnected (.openConnectionRequest2 sa
          (clamp m cfg.minMtu cfg.maxMtu) guid)) addr).2 =
      .sends (.openConnectionReply2 cfg.severGuid addr
        (clamp m cfg.minMtu cfg.maxMtu) false) ∧
    lookupAssoc (handlePacket (β := β) cfg
        (handlePacket (β := β) cfg st
          (.unconnected (.openConnectionRequest1 ver m)) addr).1
        (.unconnected (.openConnectionRequest2 sa
          (clamp m cfg.minMtu cfg.maxMtu) guid)) addr).1.connected addr =
      some ⟨addr, clamp m cfg.minMtu cfg.maxMtu⟩ := by
  have hbs : binary_search_is_ok cfg.supportVersion ver = true :=
    binary_search_complete hsorted hmem
  have hstep1 : handlePacket (β := β) cfg st
      (.unconnected (.openConnectionRequest1 ver m)) addr =
      ({ st with pending := (lruPut cfg.maxPending st.pending addr ver).1 },
       .sends (.openConnectionReply1 cfg.severGuid false
         (min cfg.maxMtu (max cfg.minMtu m)))) := by
    simp [handlePacket, hbs]
  have hMlo : cfg.minMtu ≤ clamp m cfg.minMtu cfg.maxMtu := by
    unfold clamp
    omega
  have hMhi : clamp m cfg.minMtu cfg.maxMtu ≤ cfg.maxMtu := by
    unfold clamp
    omega
  refine ⟨?_, ?_, ?_⟩
  · rw [hstep1]
    rfl
  · rw [hstep1]
    cases hpop : lruPop (lruPut cfg.maxPending st.pending addr ver).1 addr with
    | mk p1 o =>
      have ho : o = some ver := by
        have hlp := lruPop_lruPut cfg.maxPending st.pending addr ver hcap
        rw [hpop] at hlp
        simpa using hlp
      subst ho
      simp only [handlePacket, hpop]
      rw [if_neg (by simp [hconn]; omega)]
  · rw [hstep1]
    cases hpop : lruPop (lruPut cfg.maxPending st.pending addr ver).1 addr with
    | mk p1 o =>
      have ho : o = some ver := by
        have hlp := lruPop_lruPut cfg.maxPending st.pending addr ver hcap
        rw [hpop] at hlp
        simpa using hlp
      subst ho
      simp only [handlePacket, hpop]
      rw [if_neg (by simp [hconn]; omega)]
      exact lookup_insertAssoc _ _ _

/-- Witness for C2: the seed handshake (version 11, client mtu 1000,
bounds [800, 1400]) ends with `Peer{mtu = 1000}`. -/
theorem c2_witness :
    (handlePacket (β := Nat) ⟨99, 0, 800, 1400, [8, 11], 4⟩ ⟨[], []⟩
        (.unconnected (.openConnectionRequest1 11 1000)) 1).2 =
      .sends (.openConnectionReply1 99 false 1000) ∧
    lookupAssoc (handlePacket (β := Nat) ⟨99, 0, 800, 1400, [8, 11], 4⟩
        (handlePacket (β := Nat) ⟨99, 0, 800, 1400, [8, 11], 4⟩ ⟨[], []⟩
          (.unconnected (.openConnectionRequest1 11 1000)) 1).1
        (.unconnected (.openConnectionRequest2 7 1000 5)) 1).1.connected 1 =
      some ⟨1, 1000⟩ := by
  have h := c2_handshake_mtu_clamp (β := Nat) ⟨99, 0, 800, 1400, [8, 11], 4⟩
    ⟨[], []⟩ 1 11 1000 7 5 (by decide) (by decide) (by decide) (by decide)
    (by decide)
  exact ⟨h.1, h.2.2⟩

end RaknetRs
